import Mathlib

/-!
Verification of the pr-code-analyzer diff-parsing core and its surrounding
helpers.  Text is embedded as `List Char`; the diff parser and the
LLM-format serializer are modelled as pure functions following the
specification (the `DiffParser` module itself ships outside this tree,
only its callers are present).  `LLMService.processChanges` and
`HtmlReportGenerator.escapeHtml` are embedded directly from the source.
-/

namespace PRCA

/-- Drops the pattern `p` from the front of `l`; `some rest` on success. -/
def chopPre : List Char → List Char → Option (List Char)
  | [], l => some l
  | _ :: _, [] => none
  | p :: ps, c :: cs => if p = c then chopPre ps cs else none

/-- `true` when `l` begins with the pattern `p`. -/
def begins (p l : List Char) : Bool := (chopPre p l).isSome

/-- Splits a character stream into physical lines at newline characters. -/
def splitLines : List Char → List (List Char)
  | [] => [[]]
  | c :: rest =>
    if c = '\n' then [] :: splitLines rest
    else
      match splitLines rest with
      | [] => [[c]]
      | l :: ls => (c :: l) :: ls

/-- Splits a line into tokens at space characters. -/
def splitSp : List Char → List (List Char)
  | [] => [[]]
  | c :: rest =>
    if c = ' ' then [] :: splitSp rest
    else
      match splitSp rest with
      | [] => [[c]]
      | l :: ls => (c :: l) :: ls

/-- Whitespace characters: space, tab, carriage return, newline. -/
def isWs (c : Char) : Bool := c = ' ' || c = '\t' || c = '\r' || c = '\n'

/-- Takes the leading run of decimal digits off a line. -/
def takeDigits : List Char → List Char × List Char
  | [] => ([], [])
  | c :: rest =>
    if c.isDigit then
      let p := takeDigits rest
      (c :: p.1, p.2)
    else ([], c :: rest)

/-- Numeric value of a digit run, most significant digit first. -/
def digitsVal (ds : List Char) : Nat :=
  ds.foldl (fun n c => 10 * n + (c.toNat - 48)) 0

/-- The decimal digit `d` (for `d < 10`) as a character. -/
def digitChar : Nat → Char
  | 0 => '0'
  | 1 => '1'
  | 2 => '2'
  | 3 => '3'
  | 4 => '4'
  | 5 => '5'
  | 6 => '6'
  | 7 => '7'
  | 8 => '8'
  | 9 => '9'
  | _ => '?'

/-- Decimal rendering of a natural number, most significant digit first. -/
def natChars (n : Nat) : List Char :=
  if h : n < 10 then [digitChar n]
  else
    have : n / 10 < n := Nat.div_lt_self (by omega) (by omega)
    natChars (n / 10) ++ [digitChar (n % 10)]

/-! ## Data model (spec section 3) -/

/-- Classification of one physical line inside a hunk. -/
inductive DiffLineKind
  | context
  | added
  | removed
deriving DecidableEq, Repr

/-- One physical line inside a hunk: its kind, its text without the
leading marker character, and the trailing-newline flag tracked
separately. -/
structure DiffLine where
  kind : DiffLineKind
  content : List Char
  noNewline : Bool
deriving DecidableEq, Repr

/-- One contiguous region of change within a file. -/
structure Hunk where
  oldStart : Nat
  oldLineCount : Nat
  newStart : Nat
  newLineCount : Nat
  lines : List DiffLine
deriving DecidableEq, Repr

/-- The change kind of one file within a diff. -/
inductive ChangeType
  | added
  | deleted
  | modified
  | renamed
  | copied
  | binary
  | modeChanged
deriving DecidableEq, Repr

/-- One file's change set. -/
structure FileChange where
  path : List Char
  oldPath : Option (List Char)
  changeType : ChangeType
  isBinary : Bool
  hunks : List Hunk
deriving DecidableEq, Repr

/-- Counts the pre-image lines (kind `context` or `removed`) of a hunk body. -/
def isOldLine (l : DiffLine) : Bool :=
  match l.kind with
  | DiffLineKind.context => true
  | DiffLineKind.removed => true
  | DiffLineKind.added => false

/-- Counts the post-image lines (kind `context` or `added`) of a hunk body. -/
def isNewLine (l : DiffLine) : Bool :=
  match l.kind with
  | DiffLineKind.context => true
  | DiffLineKind.added => true
  | DiffLineKind.removed => false

/-- Number of `context`/`removed` entries in a hunk body. -/
def oldLen (ls : List DiffLine) : Nat := (ls.filter isOldLine).length

/-- Number of `context`/`added` entries in a hunk body. -/
def newLen (ls : List DiffLine) : Nat := (ls.filter isNewLine).length

/-! ## Parser state (spec section 4.1) -/

/-- The three scanner states of the parsing state machine. -/
inductive PMode
  | seekingFileHeader
  | inFileMetadata
  | inHunk
deriving DecidableEq, Repr

/-- A file section under construction. -/
structure CurFile where
  fpath : List Char
  foldPath : List Char
  ftype : ChangeType
  fbinary : Bool
  fhunks : List Hunk
deriving DecidableEq, Repr

/-- A hunk under construction. -/
structure CurHunk where
  hOldStart : Nat
  hOldCount : Nat
  hNewStart : Nat
  hNewCount : Nat
  hLines : List DiffLine
deriving DecidableEq, Repr

/-- The full parser state: emitted file changes, recorded warnings, the
open file and hunk, and the scanner mode. -/
structure PState where
  changes : List FileChange
  warnings : List (List Char)
  curFile : Option CurFile
  curHunk : Option CurHunk
  mode : PMode
deriving DecidableEq, Repr

/-- Diagnostic recorded when a hunk header is malformed. -/
def malformedHunkMsg : List Char := "malformed hunk header".data

/-- Diagnostic recorded when a hunk body disagrees with its declared counts. -/
def countMismatchMsg : List Char := "hunk line count mismatch".data

/-- Freezes a hunk under construction into an immutable `Hunk` record. -/
def mkHunk (h : CurHunk) : Hunk :=
  ⟨h.hOldStart, h.hOldCount, h.hNewStart, h.hNewCount, h.hLines⟩

/-- The hunk-arithmetic invariant check at hunk close. -/
def hunkCountsOk (h : CurHunk) : Bool :=
  oldLen h.hLines == h.hOldCount && newLen h.hLines == h.hNewCount

/-- Modelled from the spec: closing the open hunk of the missing
`DiffParser` — a hunk whose body satisfies the count invariant is
appended to the open file; a mismatch is a parse anomaly: the hunk is
dropped and a diagnostic recorded. -/
def closeHunk (st : PState) : PState :=
  match st.curHunk with
  | none => st
  | some h =>
    if hunkCountsOk h then
      match st.curFile with
      | some f =>
        { st with curFile := some { f with fhunks := f.fhunks ++ [mkHunk h] },
                  curHunk := none }
      | none => { st with curHunk := none }
    else
      { st with warnings := st.warnings ++ [countMismatchMsg], curHunk := none }

/-- Modelled from the spec: freezing a file section — `oldPath` is kept
only for renamed, copied or deleted files, and a binary file always has
empty hunks. -/
def finalizeFile (f : CurFile) : FileChange :=
  { path := f.fpath
  , oldPath :=
      match f.ftype with
      | ChangeType.renamed => some f.foldPath
      | ChangeType.copied => some f.foldPath
      | ChangeType.deleted => some f.foldPath
      | _ => none
  , changeType := f.ftype
  , isBinary := f.fbinary
  , hunks := if f.fbinary then [] else f.fhunks }

/-- Modelled from the spec: closing any in-progress hunk and file. -/
def closeFile (st : PState) : PState :=
  match (closeHunk st).curFile with
  | none => closeHunk st
  | some f =>
    { closeHunk st with
        changes := (closeHunk st).changes ++ [finalizeFile f],
        curFile := none, mode := PMode.seekingFileHeader }

/-- Strips the conventional `a/` or `b/` prefix from a diff path. -/
def stripVCS (p : List Char) : List Char :=
  match chopPre "a/".data p with
  | some r => r
  | none =>
    match chopPre "b/".data p with
    | some r => r
    | none => p

/-- Modelled from the spec: a per-file diff header closes any in-progress
file/hunk and starts a new `FileChange`; its arguments carry the two
paths. -/
def startFile (st : PState) (rest : List Char) : PState :=
  { closeFile st with
      curFile := some
        ⟨stripVCS (((splitSp rest).drop 1).headD []),
         stripVCS ((splitSp rest).headD []),
         ChangeType.modified, false, []⟩,
      curHunk := none, mode := PMode.inFileMetadata }

/-- Applies an update to the open file section, if any. -/
def updFile (st : PState) (g : CurFile → CurFile) : PState :=
  match st.curFile with
  | some f => { st with curFile := some (g f) }
  | none => st

/-- The `/dev/null` pseudo-path of unified diffs. -/
def devNull : List Char := "/dev/null".data

/-- Parses an optional `,count` suffix; an omitted count defaults to 1. -/
def countOpt (cs : List Char) : Option (Nat × List Char) :=
  match cs with
  | ',' :: r =>
    let p := takeDigits r
    if p.1.isEmpty then none else some (digitsVal p.1, p.2)
  | _ => some (1, cs)

/-- Modelled from the spec: the hunk-header recognizer of the missing
`DiffParser` — accepts `@@ -a,b +c,d @@` with either count optional
(defaulting to 1), rejecting non-numeric fields and missing `@@`
delimiters. -/
def parseHunkHeader (l : List Char) : Option (Nat × Nat × Nat × Nat) :=
  match chopPre "@@ -".data l with
  | none => none
  | some r1 =>
    let p1 := takeDigits r1
    if p1.1.isEmpty then none else
    match countOpt p1.2 with
    | none => none
    | some (oc, r3) =>
      match chopPre " +".data r3 with
      | none => none
      | some r4 =>
        let p3 := takeDigits r4
        if p3.1.isEmpty then none else
        match countOpt p3.2 with
        | none => none
        | some (nc, r6) =>
          match chopPre " @@".data r6 with
          | none => none
          | some _ => some (digitsVal p1.1, oc, digitsVal p3.1, nc)

/-- Modelled from the spec: metadata handling of the missing `DiffParser`
in the `InFileMetadata` state — metadata lines refine `changeType` and the
paths, a binary marker suppresses hunk parsing, a valid hunk header opens
a hunk, a malformed one records a warning, and anything else is skipped. -/
def handleMeta (st : PState) (l : List Char) : PState :=
  if begins "Binary files ".data l then
    updFile st (fun f => { f with fbinary := true, ftype := ChangeType.binary })
  else if begins "new file mode".data l then
    updFile st (fun f => { f with ftype := ChangeType.added })
  else if begins "deleted file mode".data l then
    updFile st (fun f => { f with ftype := ChangeType.deleted })
  else
    match chopPre "rename from ".data l with
    | some p => updFile st (fun f => { f with ftype := ChangeType.renamed, foldPath := p })
    | none =>
    match chopPre "rename to ".data l with
    | some p => updFile st (fun f => { f with ftype := ChangeType.renamed, fpath := p })
    | none =>
    match chopPre "copy from ".data l with
    | some p => updFile st (fun f => { f with ftype := ChangeType.copied, foldPath := p })
    | none =>
    match chopPre "copy to ".data l with
    | some p => updFile st (fun f => { f with ftype := ChangeType.copied, fpath := p })
    | none =>
    if begins "old mode ".data l || begins "new mode ".data l then
      updFile st (fun f => { f with ftype := ChangeType.modeChanged })
    else if begins "similarity index ".data l || begins "index ".data l then
      st
    else
    match chopPre "--- ".data l with
    | some p =>
      if p = devNull then updFile st (fun f => { f with ftype := ChangeType.added })
      else updFile st (fun f => { f with foldPath := stripVCS p })
    | none =>
    match chopPre "+++ ".data l with
    | some p =>
      if p = devNull then
        updFile st (fun f => { f with ftype := ChangeType.deleted, fpath := [] })
      else updFile st (fun f => { f with fpath := stripVCS p })
    | none =>
    if begins "@@".data l then
      match st.curFile with
      | some f =>
        if f.fbinary then st
        else
          match parseHunkHeader l with
          | some (a, b, c, d) =>
            { st with curHunk := some ⟨a, b, c, d, []⟩, mode := PMode.inHunk }
          | none => { st with warnings := st.warnings ++ [malformedHunkMsg] }
      | none => st
    else st

/-- Appends one classified line to the open hunk. -/
def appendLine (st : PState) (k : DiffLineKind) (content : List Char) : PState :=
  match st.curHunk with
  | some h =>
    { st with curHunk := some { h with hLines := h.hLines ++ [⟨k, content, false⟩] } }
  | none => st

/-- Sets the trailing-newline flag on the last recorded line. -/
def setLastNoNL : List DiffLine → List DiffLine
  | [] => []
  | [l] => [{ l with noNewline := true }]
  | l :: ls => l :: setLastNoNL ls

/-- Marks the immediately preceding line as lacking a trailing newline. -/
def markNoNewline (st : PState) : PState :=
  match st.curHunk with
  | some h => { st with curHunk := some { h with hLines := setLastNoNL h.hLines } }
  | none => st

/-- Modelled from the spec: hunk-body handling of the missing
`DiffParser` in the `InHunk` state — the leading `+`/`-`/space column
classifies the line, a backslash marker updates the trailing-newline flag,
a new hunk header closes the open hunk, and a malformed hunk header is
skipped with a warning. -/
def handleHunkLine (st : PState) (l : List Char) : PState :=
  if begins "@@".data l then
    match parseHunkHeader l with
    | some (a, b, c, d) =>
      { closeHunk st with curHunk := some ⟨a, b, c, d, []⟩,
                          mode := PMode.inHunk }
    | none =>
      { closeHunk st with
          warnings := (closeHunk st).warnings ++ [malformedHunkMsg],
          mode := PMode.inFileMetadata }
  else
    match l with
    | '+' :: rest => appendLine st DiffLineKind.added rest
    | '-' :: rest => appendLine st DiffLineKind.removed rest
    | ' ' :: rest => appendLine st DiffLineKind.context rest
    | '\\' :: _ => markNoNewline st
    | _ => st

/-- Modelled from the spec: one step of the missing `DiffParser` state
machine over `{SeekingFileHeader, InFileMetadata, InHunk}` on one physical
line. -/
def stepLine (st : PState) (l : List Char) : PState :=
  match chopPre "diff --git ".data l with
  | some rest => startFile st rest
  | none =>
    match st.mode with
    | PMode.seekingFileHeader => st
    | PMode.inFileMetadata => handleMeta st l
    | PMode.inHunk => handleHunkLine st l

/-- Runs the state machine over a list of physical lines, closing the
last open file/hunk at end of input. -/
def runLines (st : PState) : List (List Char) → PState
  | [] => closeFile st
  | l :: ls => runLines (stepLine st l) ls

/-- The initial parser state. -/
def initState : PState :=
  ⟨[], [], none, none, PMode.seekingFileHeader⟩

/-- Modelled from the spec: `parse(rawDiffText)` of the missing
`DiffParser` — a single left-to-right scan over physical lines returning
the ordered `FileChange` sequence together with recorded warnings. -/
def parseChars (cs : List Char) : PState :=
  runLines initState (splitLines cs)

/-! ## LLM-format serializer (spec section 4.2) -/

/-- Human/machine-readable name of a change kind. -/
def ctName : ChangeType → List Char
  | ChangeType.added => "added".data
  | ChangeType.deleted => "deleted".data
  | ChangeType.modified => "modified".data
  | ChangeType.renamed => "renamed".data
  | ChangeType.copied => "copied".data
  | ChangeType.binary => "binary".data
  | ChangeType.modeChanged => "mode-changed".data

/-- The original marker column of a diff line. -/
def lineMarker : DiffLineKind → Char
  | DiffLineKind.context => ' '
  | DiffLineKind.added => '+'
  | DiffLineKind.removed => '-'

/-- A newline character. -/
def nlc : List Char := ['\n']

/-- The "no trailing newline" marker text of unified diffs. -/
def noNewlineMarkerTxt : List Char := "\\ No newline at end of file".data

/-- Renders one diff line with its original marker column preserved. -/
def serLine (l : DiffLine) : List Char :=
  (lineMarker l.kind :: l.content) ++ nlc ++
    (if l.noNewline then noNewlineMarkerTxt ++ nlc else [])

/-- Renders one hunk: its header followed by its prefixed lines. -/
def serHunk (h : Hunk) : List Char :=
  "@@ -".data ++ natChars h.oldStart ++ [','] ++ natChars h.oldLineCount ++
    " +".data ++ natChars h.newStart ++ [','] ++ natChars h.newLineCount ++
    " @@".data ++ nlc ++ (h.lines.map serLine).flatten

/-- Modelled from the spec: the fixed per-file header line naming the
file path(s) and change kind. -/
def serFileHeader (fc : FileChange) : List Char :=
  "File: ".data ++ fc.path ++
    (match fc.oldPath with
     | some op => " (from ".data ++ op ++ ")".data
     | none => []) ++
    " [".data ++ ctName fc.changeType ++ "]".data ++ nlc

/-- Renders one file section: header then hunk blocks (header-only for
binary and rename-only files, whose hunk sequence is empty). -/
def serFile (fc : FileChange) : List Char :=
  serFileHeader fc ++ (fc.hunks.map serHunk).flatten

/-- The fixed delimiter line separating file sections. -/
def sectionDelim : List Char :=
  "========================================".data ++ nlc

/-- Modelled from the spec: `serialize(changes)` of the missing
`DiffParser` (`saveChangesForLLM` minus the file write) — sections in
input order, each followed by the fixed delimiter line. -/
def serializeChanges (cs : List FileChange) : List Char :=
  (cs.map (fun fc => serFile fc ++ sectionDelim)).flatten

/-! ## `LLMService.processChanges` (embedded from the source) -/

/-- The fallible effects `processChanges` performs, abstracted as
already-resolved outcomes: the file read, the prompt table lookup, the
chat-completion call, and the two report writes. -/
structure LLMEnv where
  readResult : Except (List Char) (List Char)
  promptFor : List Char → Option (List Char)
  llmResult : Except (List Char) (List Char)
  writeTxtResult : Except (List Char) Unit
  writeHtmlResult : Except (List Char) Unit

/-- Joins an output folder and a file name. -/
def joinPath (folder name : List Char) : List Char := folder ++ ['/'] ++ name

/-- Whether the txt report is produced for this format argument. -/
def txtWanted (fmt : List Char) : Bool :=
  fmt = "txt".data || fmt = "both".data

/-- Whether the html report is produced for this format argument. -/
def htmlWanted (fmt : List Char) : Bool :=
  fmt = "html".data || fmt = "both".data

/-- The txt report path `output_{mode}.txt` in the output folder. -/
def txtPath (mode folder : List Char) : List Char :=
  joinPath folder ("output_".data ++ mode ++ ".txt".data)

/-- The html report path `output_{mode}.html` in the output folder. -/
def htmlPath (mode folder : List Char) : List Char :=
  joinPath folder ("output_".data ++ mode ++ ".html".data)

/-- The body of the `try` block of `LLMService.processChanges`: read the
changes file, validate the mode against the prompt table, call the model,
write the requested reports, and return the first output path (or nothing
when no output was requested). -/
def processChangesBody (env : LLMEnv) (mode fmt folder : List Char) :
    Except (List Char) (Option (List Char)) :=
  match env.readResult with
  | Except.error e => Except.error e
  | Except.ok _ =>
    match env.promptFor mode with
    | none => Except.error ("Invalid mode: ".data ++ mode)
    | some _ =>
      match env.llmResult with
      | Except.error e => Except.error e
      | Except.ok _ =>
        match (if txtWanted fmt then env.writeTxtResult else Except.ok ()) with
        | Except.error e => Except.error e
        | Except.ok _ =>
          match (if htmlWanted fmt then env.writeHtmlResult else Except.ok ()) with
          | Except.error e => Except.error e
          | Except.ok _ =>
            Except.ok
              ((if txtWanted fmt then [txtPath mode folder] else []) ++
                (if htmlWanted fmt then [htmlPath mode folder] else [])).head?

/-- `LLMService.processChanges`: the whole body runs inside a `try`
whose `catch` logs the error and resolves to `null`. -/
def processChanges (env : LLMEnv) (mode fmt folder : List Char) :
    Option (List Char) :=
  match processChangesBody env mode fmt folder with
  | Except.ok r => r
  | Except.error _ => none

/-! ## `HtmlReportGenerator.escapeHtml` (embedded from the source) -/

/-- The double-quote character. -/
def quotC : Char := Char.ofNat 34

/-- The apostrophe character. -/
def aposC : Char := Char.ofNat 39

/-- The per-character replacement map of `escapeHtml`: the five HTML
special characters map to their entities, everything else to itself. -/
def escChar (c : Char) : List Char :=
  if c = '&' then "&amp;".data
  else if c = '<' then "&lt;".data
  else if c = '>' then "&gt;".data
  else if c = quotC then "&quot;".data
  else if c = aposC then "&#039;".data
  else [c]

/-- `HtmlReportGenerator.escapeHtml`: global regex replacement of
`[&<>"']` through the entity map. -/
def escapeHtml (cs : List Char) : List Char := (cs.map escChar).flatten

/-! ## Concrete inputs used to exercise the development -/

/-- The worked scenario of spec section 8: one modified file, one hunk
`@@ -1,3 +1,4 @@` with five classified lines. -/
def sample1 : List Char :=
  ("diff --git a/src/a.go b/src/a.go\nindex 123..456 100644\n--- a/src/a.go\n+++ b/src/a.go\n@@ -1,3 +1,4 @@\n foo\n-bar\n+bar2\n+baz\n qux\n").data

/-- A diff whose first file carries a malformed hunk header and whose
second file is well formed. -/
def sampleMalformed : List Char :=
  ("diff --git a/x.txt b/x.txt\n--- a/x.txt\n+++ b/x.txt\n@@ -x,3 +1,2 @@\n a\n-b\ndiff --git a/y.txt b/y.txt\n--- a/y.txt\n+++ b/y.txt\n@@ -5,2 +8 @@\n p\n-q\n").data

/-- A diff section with a "Binary files differ" marker followed by
hunk-like text. -/
def sampleBinary : List Char :=
  ("diff --git a/img.png b/img.png\nindex 0000..1111\nBinary files a/img.png and b/img.png differ\n@@ -1,2 +1,2 @@\n fake\n").data

/-- The hunk the worked scenario of spec section 8 produces. -/
def sampleHunk : Hunk :=
  { oldStart := 1, oldLineCount := 3, newStart := 1, newLineCount := 4
  , lines :=
      [ ⟨DiffLineKind.context, "foo".data, false⟩
      , ⟨DiffLineKind.removed, "bar".data, false⟩
      , ⟨DiffLineKind.added, "bar2".data, false⟩
      , ⟨DiffLineKind.added, "baz".data, false⟩
      , ⟨DiffLineKind.context, "qux".data, false⟩ ] }

/-- The file change the worked scenario of spec section 8 produces. -/
def sampleFc : FileChange :=
  { path := "src/a.go".data, oldPath := none, changeType := ChangeType.modified
  , isBinary := false, hunks := [sampleHunk] }

/-- A parser state holding an open hunk whose body disagrees with its
declared counts. -/
def badCountSt : PState :=
  { changes := [], warnings := [], curFile := some ⟨"f".data, "f".data, ChangeType.modified, false, []⟩
  , curHunk := some ⟨1, 5, 1, 5, [⟨DiffLineKind.context, "x".data, false⟩]⟩
  , mode := PMode.inHunk }

/-- A parser state in the `InFileMetadata` state with an open text file. -/
def metaSt : PState :=
  { changes := [], warnings := [], curFile := some ⟨"f".data, "f".data, ChangeType.modified, false, []⟩
  , curHunk := none, mode := PMode.inFileMetadata }

/-- A parser state in the `InHunk` state with an open empty hunk. -/
def hunkSt : PState :=
  { changes := [], warnings := [], curFile := some ⟨"f".data, "f".data, ChangeType.modified, false, []⟩
  , curHunk := some ⟨1, 2, 1, 2, []⟩, mode := PMode.inHunk }

/-- A hunk header built from numbers with the new-side count omitted. -/
def hdrNoCount (a b c : Nat) : List Char :=
  "@@ -".data ++ natChars a ++ [','] ++ natChars b ++ " +".data ++
    natChars c ++ " @@".data

/-- A hunk header built from numbers with the old-side count omitted. -/
def hdrNoOldCount (a c d : Nat) : List Char :=
  "@@ -".data ++ natChars a ++ " +".data ++ natChars c ++ [','] ++
    natChars d ++ " @@".data

/-- An effect environment in which every operation succeeds. -/
def envOk : LLMEnv :=
  { readResult := Except.ok "changes".data
  , promptFor := fun _ => some "prompt".data
  , llmResult := Except.ok "review".data
  , writeTxtResult := Except.ok ()
  , writeHtmlResult := Except.ok () }

/-- An effect environment in which the file read fails. -/
def envBad : LLMEnv :=
  { readResult := Except.error "ENOENT".data
  , promptFor := fun _ => some "prompt".data
  , llmResult := Except.ok "review".data
  , writeTxtResult := Except.ok ()
  , writeHtmlResult := Except.ok () }

/-- A character is a raw HTML-dangerous character. -/
def rawSpecial (d : Char) : Bool :=
  d = '<' || d = '>' || d = quotC || d = aposC

/-- The hunk-arithmetic invariant of spec section 3, as a proposition. -/
def hunkOkP (h : Hunk) : Prop :=
  oldLen h.lines = h.oldLineCount ∧ newLen h.lines = h.newLineCount

/-- The parser-state invariant: every emitted file change has arithmetic
consistent hunks and empty hunks when binary, and every closed hunk of
the open file is arithmetic consistent. -/
def Inv (st : PState) : Prop :=
  (∀ fc ∈ st.changes,
     (∀ h ∈ fc.hunks, hunkOkP h) ∧ (fc.isBinary = true → fc.hunks = [])) ∧
  (∀ f, st.curFile = some f → ∀ h ∈ f.fhunks, hunkOkP h)

/-- The file change produced for the binary sample diff. -/
def sampleBinFc : FileChange :=
  { path := "img.png".data, oldPath := none, changeType := ChangeType.binary
  , isBinary := true, hunks := [] }

/-! ## Theorems -/

theorem diffHdr_data : "diff --git ".data = 'd' :: "iff --git ".data := rfl

theorem escChar_all_safe (c : Char) :
    (escChar c).all (fun d => !rawSpecial d) = true := by
  unfold escChar
  split_ifs with h1 h2 h3 h4 h5
  · decide
  · decide
  · decide
  · decide
  · decide
  · simp [rawSpecial, h2, h3, h4, h5]

/-- C10: `escapeHtml` replaces `&`, `<`, `>`, `"`, `'` with their HTML
entities, leaves every other character unchanged, and its result contains
no raw `<`, `>`, `"` or `'` character. -/
theorem escapeHtml_spec :
    (escapeHtml ['&'] = "&amp;".data ∧ escapeHtml ['<'] = "&lt;".data ∧
     escapeHtml ['>'] = "&gt;".data ∧ escapeHtml [quotC] = "&quot;".data ∧
     escapeHtml [aposC] = "&#039;".data) ∧
    (∀ c : Char, c ≠ '&' → c ≠ '<' → c ≠ '>' → c ≠ quotC → c ≠ aposC →
       escChar c = [c]) ∧
    (∀ cs : List Char, escapeHtml cs = (cs.map escChar).flatten) ∧
    (∀ cs : List Char, ∀ d ∈ escapeHtml cs,
       d ≠ '<' ∧ d ≠ '>' ∧ d ≠ quotC ∧ d ≠ aposC) := by
  refine ⟨⟨by decide, by decide, by decide, by decide, by decide⟩,
    ?_, fun _ => rfl, ?_⟩
  · intro c h1 h2 h3 h4 h5
    simp [escChar, h1, h2, h3, h4, h5]
  · intro cs d hd
    unfold escapeHtml at hd
    rw [List.mem_flatten] at hd
    obtain ⟨l, hl, hdl⟩ := hd
    rw [List.mem_map] at hl
    obtain ⟨c, _, rfl⟩ := hl
    have hall := escChar_all_safe c
    rw [List.all_eq_true] at hall
    have h2 := hall d hdl
    simp [rawSpecial] at h2
    exact ⟨h2.1.1.1, h2.1.1.2, h2.1.2, h2.2⟩

theorem escapeHtml_spec_witness :
    escChar 'x' = ['x'] ∧
      ('a' ≠ '<' ∧ 'a' ≠ '>' ∧ 'a' ≠ quotC ∧ 'a' ≠ aposC) :=
  ⟨escapeHtml_spec.2.1 'x' (by decide) (by decide) (by decide) (by decide)
      (by decide),
   escapeHtml_spec.2.2.2 ['a'] 'a' (by decide)⟩

/-- C9: `LLMService.processChanges` never propagates an exception: every
internal failure of its body resolves to `null`, and a non-null result is
one of the two report paths. -/
theorem processChanges_no_throw :
    (∀ env mode fmt folder e,
       processChangesBody env mode fmt folder = Except.error e →
       processChanges env mode fmt folder = none) ∧
    (∀ env mode fmt folder p,
       processChanges env mode fmt folder = some p →
       p = txtPath mode folder ∨ p = htmlPath mode folder) := by
  constructor
  · intro env mode fmt folder e he
    unfold processChanges
    rw [he]
  · intro env mode fmt folder p hp
    unfold processChanges at hp
    rcases hb : processChangesBody env mode fmt folder with e | r
    · rw [hb] at hp
      simp at hp
    · rw [hb] at hp
      simp at hp
      unfold processChangesBody at hb
      repeat' split at hb
      all_goals simp_all

theorem processChanges_no_throw_witness :
    processChanges envBad "review".data "txt".data "out".data = none ∧
      ("out/output_review.txt".data = txtPath "review".data "out".data ∨
        "out/output_review.txt".data = htmlPath "review".data "out".data) :=
  ⟨processChanges_no_throw.1 envBad "review".data "txt".data "out".data
      "ENOENT".data rfl,
   processChanges_no_throw.2 envOk "review".data "txt".data "out".data
      "out/output_review.txt".data rfl⟩

/-- C3: `serialize(parse(text))` is deterministic — identical input text
produces byte-identical serialized output. -/
theorem serialize_parse_deterministic :
    ∀ t1 t2 : List Char, t1 = t2 →
      serializeChanges (parseChars t1).changes =
        serializeChanges (parseChars t2).changes := by
  intro t1 t2 h
  rw [h]

theorem serialize_parse_deterministic_witness :
    serializeChanges (parseChars sample1).changes =
      serializeChanges (parseChars sample1).changes :=
  serialize_parse_deterministic sample1 sample1 rfl

/-- C8: `parse` is a pure function of the supplied text — two runs on the
same text yield the same `FileChange` sequence (and whole parser state). -/
theorem parse_pure_deterministic :
    ∀ t1 t2 : List Char, t1 = t2 → parseChars t1 = parseChars t2 := by
  intro t1 t2 h
  rw [h]

theorem parse_pure_deterministic_witness :
    parseChars sampleBinary = parseChars sampleBinary :=
  parse_pure_deterministic sampleBinary sampleBinary rfl

theorem splitLines_ne_nil (cs : List Char) : splitLines cs ≠ [] := by
  induction cs with
  | nil => simp [splitLines]
  | cons c rest ih =>
    unfold splitLines
    split
    · simp
    · split
      · simp
      · simp

theorem splitLines_ws (cs : List Char) (h : cs.all isWs = true) :
    ∀ l ∈ splitLines cs, l.all isWs = true := by
  induction cs with
  | nil =>
    intro l hl
    simp [splitLines] at hl
    subst hl
    rfl
  | cons c rest ih =>
    rw [List.all_cons, Bool.and_eq_true] at h
    intro l hl
    unfold splitLines at hl
    split at hl
    · rcases List.mem_cons.mp hl with rfl | hmem
      · rfl
      · exact ih h.2 l hmem
    · rcases hrest : splitLines rest with _ | ⟨l0, ls⟩
      · exact absurd hrest (splitLines_ne_nil rest)
      · rw [hrest] at hl
        change l ∈ (c :: l0) :: ls at hl
        rcases List.mem_cons.mp hl with rfl | hmem
        · rw [List.all_cons, Bool.and_eq_true]
          exact ⟨h.1, ih h.2 l0 (hrest ▸ List.mem_cons_self l0 ls)⟩
        · exact ih h.2 l (hrest ▸ List.mem_cons_of_mem l0 hmem)

theorem ws_line_step (st : PState) (l : List Char)
    (hm : st.mode = PMode.seekingFileHeader) (hw : l.all isWs = true) :
    stepLine st l = st := by
  unfold stepLine
  have hchop : chopPre "diff --git ".data l = none := by
    cases l with
    | nil => rfl
    | cons c cs =>
      rw [List.all_cons, Bool.and_eq_true] at hw
      rw [diffHdr_data]
      unfold chopPre
      rw [if_neg]
      intro hdc
      exact absurd hw.1 (by rw [← hdc]; decide)
  rw [hchop, hm]

theorem ws_runLines (ls : List (List Char))
    (hws : ∀ l ∈ ls, l.all isWs = true) :
    runLines initState ls = initState := by
  induction ls with
  | nil => rfl
  | cons l ls ih =>
    unfold runLines
    rw [ws_line_step initState l rfl (hws l (List.mem_cons_self l ls))]
    exact ih (fun x hx => hws x (List.mem_cons_of_mem l hx))

/-- C2: parsing empty or whitespace-only input yields an empty sequence
of file changes with no recorded anomaly — a valid "no changes" outcome. -/
theorem parse_whitespace_empty (cs : List Char) (h : cs.all isWs = true) :
    (parseChars cs).changes = [] ∧ (parseChars cs).warnings = [] := by
  unfold parseChars
  rw [ws_runLines (splitLines cs) (splitLines_ws cs h)]
  exact ⟨rfl, rfl⟩

theorem parse_whitespace_empty_witness :
    (parseChars ("  \n\t \r\n ".data)).changes = [] ∧
      (parseChars ("  \n\t \r\n ".data)).warnings = [] :=
  parse_whitespace_empty ("  \n\t \r\n ".data) (by decide)

theorem inv_of_eq_parts (st st' : PState) (hc : st'.changes = st.changes)
    (hf : st'.curFile = st.curFile) (h : Inv st) : Inv st' := by
  constructor
  · rw [hc]
    exact h.1
  · intro f hf2
    rw [hf] at hf2
    exact h.2 f hf2

theorem updFile_inv (st : PState) (g : CurFile → CurFile)
    (hg : ∀ f, (g f).fhunks = f.fhunks) (h : Inv st) : Inv (updFile st g) := by
  unfold updFile
  cases hcf : st.curFile with
  | none => exact h
  | some f0 =>
    constructor
    · exact h.1
    · intro f hf
      have hf2 : some (g f0) = some f := hf
      injection hf2 with hf2
      subst hf2
      rw [hg f0]
      exact h.2 f0 hcf

theorem handleMeta_inv (st : PState) (l : List Char) (h : Inv st) :
    Inv (handleMeta st l) := by
  unfold handleMeta
  repeat' split
  all_goals
    first
      | exact h
      | exact updFile_inv _ _ (fun f => rfl) h

theorem closeHunk_inv (st : PState) (h : Inv st) : Inv (closeHunk st) := by
  unfold closeHunk
  split
  · exact h
  · rename_i hk hcur
    split
    · rename_i hok
      split
      · rename_i f hcf
        constructor
        · exact h.1
        · intro f2 hf2
          have hf3 : some { f with fhunks := f.fhunks ++ [mkHunk hk] } = some f2 := hf2
          injection hf3 with hf3
          subst hf3
          intro h2 hh2
          rcases List.mem_append.mp hh2 with hm | hm
          · exact h.2 f hcf h2 hm
          · rw [List.mem_singleton] at hm
            subst hm
            rw [hunkCountsOk, Bool.and_eq_true, beq_iff_eq, beq_iff_eq] at hok
            exact ⟨hok.1, hok.2⟩
      · exact inv_of_eq_parts st _ rfl rfl h
    · exact inv_of_eq_parts st _ rfl rfl h

theorem finalizeFile_inv (f : CurFile) (hf : ∀ h ∈ f.fhunks, hunkOkP h) :
    (∀ h ∈ (finalizeFile f).hunks, hunkOkP h) ∧
      ((finalizeFile f).isBinary = true → (finalizeFile f).hunks = []) := by
  unfold finalizeFile
  constructor
  · intro h hh
    dsimp at hh
    split at hh
    · exact absurd hh (List.not_mem_nil h)
    · exact hf h hh
  · intro hb
    dsimp at hb ⊢
    rw [if_pos hb]

theorem closeFile_inv (st : PState) (h : Inv st) : Inv (closeFile st) := by
  unfold closeFile
  have h1 := closeHunk_inv st h
  split
  · exact h1
  · rename_i f hf
    constructor
    · intro fc hfc
      rcases List.mem_append.mp hfc with hm | hm
      · exact h1.1 fc hm
      · rw [List.mem_singleton] at hm
        subst hm
        exact finalizeFile_inv f (h1.2 f hf)
    · intro f2 hf2
      exact Option.noConfusion hf2

theorem startFile_inv (st : PState) (rest : List Char) (h : Inv st) :
    Inv (startFile st rest) := by
  unfold startFile
  have h1 := closeFile_inv st h
  constructor
  · exact h1.1
  · intro f hf
    have hf2 : some
        (⟨stripVCS (((splitSp rest).drop 1).headD []),
          stripVCS ((splitSp rest).headD []),
          ChangeType.modified, false, []⟩ : CurFile) = some f := hf
    injection hf2 with hf2
    subst hf2
    intro h2 hh2
    exact absurd hh2 (List.not_mem_nil h2)

theorem appendLine_inv (st : PState) (k : DiffLineKind) (c : List Char)
    (h : Inv st) : Inv (appendLine st k c) := by
  unfold appendLine
  split
  · exact inv_of_eq_parts st _ rfl rfl h
  · exact h

theorem markNoNewline_inv (st : PState) (h : Inv st) :
    Inv (markNoNewline st) := by
  unfold markNoNewline
  split
  · exact inv_of_eq_parts st _ rfl rfl h
  · exact h

theorem handleHunkLine_inv (st : PState) (l : List Char) (h : Inv st) :
    Inv (handleHunkLine st l) := by
  unfold handleHunkLine
  repeat' split
  all_goals
    first
      | exact h
      | exact appendLine_inv st _ _ h
      | exact markNoNewline_inv st h
      | exact inv_of_eq_parts (closeHunk st) _ rfl rfl (closeHunk_inv st h)

theorem stepLine_inv (st : PState) (l : List Char) (h : Inv st) :
    Inv (stepLine st l) := by
  unfold stepLine
  split
  · exact startFile_inv st _ h
  · split
    · exact h
    · exact handleMeta_inv st l h
    · exact handleHunkLine_inv st l h

theorem runLines_inv (ls : List (List Char)) (st : PState) (h : Inv st) :
    Inv (runLines st ls) := by
  induction ls generalizing st with
  | nil => exact closeFile_inv st h
  | cons l ls ih => exact ih (stepLine st l) (stepLine_inv st l h)

theorem parse_inv (cs : List Char) : Inv (parseChars cs) :=
  runLines_inv (splitLines cs) initState
    ⟨fun fc hfc => absurd hfc (List.not_mem_nil fc),
     fun f hf => Option.noConfusion hf⟩

/-- C1: every hunk of every file change produced by `parse` satisfies the
count invariant — `context`+`removed` lines equal `oldLineCount` and
`context`+`added` lines equal `newLineCount` — and a hunk violating it at
close is reported as a parse anomaly, not silently ignored. -/
theorem hunk_count_invariant :
    (∀ cs : List Char, ∀ fc ∈ (parseChars cs).changes, ∀ h ∈ fc.hunks,
       oldLen h.lines = h.oldLineCount ∧ newLen h.lines = h.newLineCount) ∧
    (∀ st : PState, ∀ h : CurHunk, st.curHunk = some h →
       hunkCountsOk h = false →
       (closeHunk st).warnings = st.warnings ++ [countMismatchMsg]) := by
  constructor
  · intro cs fc hfc h hh
    exact ((parse_inv cs).1 fc hfc).1 h hh
  · intro st h hc hbad
    simp [closeHunk, hc, hbad]

theorem hunk_count_invariant_witness :
    (oldLen sampleHunk.lines = sampleHunk.oldLineCount ∧
      newLen sampleHunk.lines = sampleHunk.newLineCount) ∧
    (closeHunk badCountSt).warnings =
      badCountSt.warnings ++ [countMismatchMsg] :=
  ⟨hunk_count_invariant.1 sample1 sampleFc (by decide) sampleHunk (by decide),
   hunk_count_invariant.2 badCountSt
     ⟨1, 5, 1, 5, [⟨DiffLineKind.context, "x".data, false⟩]⟩ rfl (by decide)⟩

/-- C4: a "Binary files differ" marker sets `isBinary` on the open file
section, and every file change produced by `parse` with `isBinary = true`
has an empty hunk sequence, regardless of hunk-like text in its section. -/
theorem binary_suppresses_hunks :
    (∀ cs : List Char, ∀ fc ∈ (parseChars cs).changes,
       fc.isBinary = true → fc.hunks = []) ∧
    (∀ st : PState, ∀ f : CurFile, ∀ rest : List Char,
       st.mode = PMode.inFileMetadata → st.curFile = some f →
       (stepLine st ("Binary files ".data ++ rest)).curFile =
         some { f with fbinary := true, ftype := ChangeType.binary }) := by
  constructor
  · intro cs fc hfc
    exact ((parse_inv cs).1 fc hfc).2
  · intro st f rest hm hf
    obtain ⟨chs, ws, cf, ch, md⟩ := st
    dsimp at hm hf
    subst hm
    subst hf
    rfl

theorem binary_suppresses_hunks_witness :
    sampleBinFc.isBinary = true → sampleBinFc.hunks = [] :=
  binary_suppresses_hunks.1 sampleBinary sampleBinFc (by decide)

theorem digitChar_isDigit (d : Nat) (h : d < 10) :
    (digitChar d).isDigit = true := by
  interval_cases d <;> decide

theorem digitChar_val (d : Nat) (h : d < 10) : (digitChar d).toNat - 48 = d := by
  interval_cases d <;> decide

theorem natChars_all_digit : ∀ n : Nat, ∀ c ∈ natChars n, c.isDigit = true := by
  intro n
  induction n using Nat.strong_induction_on with
  | _ n ih =>
    intro c hc
    rw [natChars] at hc
    split at hc
    · rename_i h
      rw [List.mem_singleton] at hc
      subst hc
      exact digitChar_isDigit n h
    · rename_i h
      rcases List.mem_append.mp hc with hm | hm
      · exact ih (n / 10) (Nat.div_lt_self (by omega) (by omega)) c hm
      · rw [List.mem_singleton] at hm
        subst hm
        exact digitChar_isDigit (n % 10) (Nat.mod_lt n (by omega))

theorem natChars_ne_nil (n : Nat) : natChars n ≠ [] := by
  rw [natChars]
  split
  · simp
  · simp

theorem natChars_isEmpty (n : Nat) : (natChars n).isEmpty = false := by
  rcases h : natChars n with _ | ⟨c, cs⟩
  · exact absurd h (natChars_ne_nil n)
  · rfl

theorem digitsVal_append_digit (xs : List Char) (c : Char) :
    digitsVal (xs ++ [c]) = 10 * digitsVal xs + (c.toNat - 48) := by
  simp [digitsVal, List.foldl_append]

theorem natChars_val : ∀ n : Nat, digitsVal (natChars n) = n := by
  intro n
  induction n using Nat.strong_induction_on with
  | _ n ih =>
    rw [natChars]
    split
    · rename_i h
      have h2 := digitChar_val n h
      simp [digitsVal]
      omega
    · rename_i h
      rw [digitsVal_append_digit,
        ih (n / 10) (Nat.div_lt_self (by omega) (by omega)),
        digitChar_val (n % 10) (Nat.mod_lt n (by omega))]
      omega

theorem takeDigits_append (ds rest : List Char)
    (hds : ∀ c ∈ ds, c.isDigit = true)
    (hrest : ∀ c, rest.head? = some c → c.isDigit = false) :
    takeDigits (ds ++ rest) = (ds, rest) := by
  induction ds with
  | nil =>
    cases rest with
    | nil => rfl
    | cons c cs =>
      have hc := hrest c rfl
      simp [takeDigits, hc]
  | cons d ds ih =>
    have hd := hds d (List.mem_cons_self d ds)
    have ih2 := ih (fun c hc => hds c (List.mem_cons_of_mem d hc))
    simp [takeDigits, hd, ih2]

theorem atAtDash_data : "@@ -".data = ['@', '@', ' ', '-'] := rfl

theorem spPlus_data : " +".data = [' ', '+'] := rfl

theorem spAtAt_data : " @@".data = [' ', '@', '@'] := rfl

theorem head_comma (x : Char) (t : List Char)
    (hx : (',' :: t).head? = some x) : x.isDigit = false := by
  simp at hx
  subst hx
  decide

theorem head_space (x : Char) (t : List Char)
    (hx : (' ' :: t).head? = some x) : x.isDigit = false := by
  simp at hx
  subst hx
  decide

theorem countOpt_comma (r : List Char) : countOpt (',' :: r) =
    (if (takeDigits r).1.isEmpty then none
     else some (digitsVal (takeDigits r).1, (takeDigits r).2)) := rfl

theorem countOpt_space (t : List Char) :
    countOpt (' ' :: t) = some (1, ' ' :: t) := rfl

theorem chopPre_spPlus (t : List Char) :
    chopPre [' ', '+'] (' ' :: '+' :: t) = some t := rfl

theorem chopPre_spAtAt : chopPre [' ', '@', '@'] [' ', '@', '@'] = some [] := rfl

theorem parseHunkHeader_defaults (a b c : Nat) :
    parseHunkHeader (hdrNoCount a b c) = some (a, b, c, 1) := by
  unfold hdrNoCount parseHunkHeader
  simp only [atAtDash_data, spPlus_data, spAtAt_data, List.append_assoc,
    List.cons_append, List.nil_append, List.singleton_append]
  simp only [chopPre, reduceIte]
  rw [takeDigits_append (natChars a) _ (natChars_all_digit a)
    (fun x hx => head_comma x _ hx)]
  simp only [natChars_isEmpty, Bool.false_eq_true, if_false, countOpt_comma]
  rw [takeDigits_append (natChars b) _ (natChars_all_digit b)
    (fun x hx => head_space x _ hx)]
  simp only [natChars_isEmpty, Bool.false_eq_true, if_false, chopPre_spPlus]
  rw [takeDigits_append (natChars c) _ (natChars_all_digit c)
    (fun x hx => head_space x _ hx)]
  simp only [natChars_isEmpty, Bool.false_eq_true, if_false, countOpt_space,
    chopPre_spAtAt]
  rw [natChars_val, natChars_val, natChars_val]

theorem hdrNoCount_shape (a b c : Nat) :
    hdrNoCount a b c = '@' :: '@' :: ' ' :: '-' ::
      (natChars a ++ [','] ++ natChars b ++ " +".data ++ natChars c ++
        " @@".data) := rfl

theorem parseHunkHeader_defaultsOld (a c d : Nat) :
    parseHunkHeader (hdrNoOldCount a c d) = some (a, 1, c, d) := by
  unfold hdrNoOldCount parseHunkHeader
  simp only [atAtDash_data, spPlus_data, spAtAt_data, List.append_assoc,
    List.cons_append, List.nil_append, List.singleton_append]
  simp only [chopPre, reduceIte]
  rw [takeDigits_append (natChars a) _ (natChars_all_digit a)
    (fun x hx => head_space x _ hx)]
  simp only [natChars_isEmpty, Bool.false_eq_true, if_false, countOpt_space,
    chopPre_spPlus]
  rw [takeDigits_append (natChars c) _ (natChars_all_digit c)
    (fun x hx => head_comma x _ hx)]
  simp only [natChars_isEmpty, Bool.false_eq_true, if_false, countOpt_comma]
  rw [takeDigits_append (natChars d) _ (natChars_all_digit d)
    (fun x hx => head_space x _ hx)]
  simp only [natChars_isEmpty, Bool.false_eq_true, if_false, chopPre_spAtAt]
  rw [natChars_val, natChars_val, natChars_val]

theorem hdrNoOldCount_shape (a c d : Nat) :
    hdrNoOldCount a c d = '@' :: '@' :: ' ' :: '-' ::
      (natChars a ++ " +".data ++ natChars c ++ [','] ++ natChars d ++
        " @@".data) := rfl

theorem handleMeta_hunkHeader (st : PState) (f : CurFile) (l r : List Char)
    (hl : l = '@' :: '@' :: r)
    (hf : st.curFile = some f) (hb : f.fbinary = false) :
    handleMeta st l =
      match parseHunkHeader l with
      | some (a, b, c, d) =>
        { st with curHunk := some ⟨a, b, c, d, []⟩, mode := PMode.inHunk }
      | none => { st with warnings := st.warnings ++ [malformedHunkMsg] } := by
  subst hl
  have h1 : handleMeta st ('@' :: '@' :: r) =
      (match st.curFile with
       | some f0 =>
         if f0.fbinary then st
         else
           match parseHunkHeader ('@' :: '@' :: r) with
           | some (a, b, c, d) =>
             { st with curHunk := some ⟨a, b, c, d, []⟩, mode := PMode.inHunk }
           | none => { st with warnings := st.warnings ++ [malformedHunkMsg] }
       | none => st) := rfl
  rw [h1, hf]
  dsimp only
  rw [hb]
  simp

/-- C7: a hunk header omitting the explicit count for either side (as in
`@@ -5,2 +8 @@` or `@@ -5 +8,2 @@`) is accepted with the omitted count
defaulted to 1, and stepping on such a header only opens the hunk —
emitted changes, warnings and the open file section are untouched, so
parsing of subsequent sections is unaffected. -/
theorem hunk_header_default_count :
    (∀ a b c : Nat, parseHunkHeader (hdrNoCount a b c) = some (a, b, c, 1)) ∧
    (∀ a c d : Nat,
       parseHunkHeader (hdrNoOldCount a c d) = some (a, 1, c, d)) ∧
    (∀ st : PState, ∀ f : CurFile, ∀ a b c : Nat,
       st.mode = PMode.inFileMetadata → st.curFile = some f →
       f.fbinary = false →
       stepLine st (hdrNoCount a b c) =
         { st with curHunk := some ⟨a, b, c, 1, []⟩,
                   mode := PMode.inHunk }) ∧
    (∀ st : PState, ∀ f : CurFile, ∀ a c d : Nat,
       st.mode = PMode.inFileMetadata → st.curFile = some f →
       f.fbinary = false →
       stepLine st (hdrNoOldCount a c d) =
         { st with curHunk := some ⟨a, 1, c, d, []⟩,
                   mode := PMode.inHunk }) := by
  refine ⟨parseHunkHeader_defaults, parseHunkHeader_defaultsOld, ?_, ?_⟩
  · intro st f a b c hm hf hb
    obtain ⟨chs, ws, cf, ch, md⟩ := st
    dsimp at hm hf
    subst hm
    subst hf
    have hstep :
        stepLine ⟨chs, ws, some f, ch, PMode.inFileMetadata⟩ (hdrNoCount a b c) =
          handleMeta ⟨chs, ws, some f, ch, PMode.inFileMetadata⟩
            (hdrNoCount a b c) := rfl
    rw [hstep, handleMeta_hunkHeader _ f _ _ (hdrNoCount_shape a b c) rfl hb,
      parseHunkHeader_defaults]
  · intro st f a c d hm hf hb
    obtain ⟨chs, ws, cf, ch, md⟩ := st
    dsimp at hm hf
    subst hm
    subst hf
    have hstep :
        stepLine ⟨chs, ws, some f, ch, PMode.inFileMetadata⟩
            (hdrNoOldCount a c d) =
          handleMeta ⟨chs, ws, some f, ch, PMode.inFileMetadata⟩
            (hdrNoOldCount a c d) := rfl
    rw [hstep, handleMeta_hunkHeader _ f _ _ (hdrNoOldCount_shape a c d) rfl hb,
      parseHunkHeader_defaultsOld]

theorem hunk_header_default_count_witness :
    parseHunkHeader (hdrNoCount 5 2 8) = some (5, 2, 8, 1) ∧
      parseHunkHeader (hdrNoOldCount 5 8 2) = some (5, 1, 8, 2) ∧
      stepLine metaSt (hdrNoCount 5 2 8) =
        { metaSt with curHunk := some ⟨5, 2, 8, 1, []⟩,
                      mode := PMode.inHunk } ∧
      stepLine metaSt (hdrNoOldCount 5 8 2) =
        { metaSt with curHunk := some ⟨5, 1, 8, 2, []⟩,
                      mode := PMode.inHunk } :=
  ⟨hunk_header_default_count.1 5 2 8,
   hunk_header_default_count.2.1 5 8 2,
   hunk_header_default_count.2.2.1 metaSt
     ⟨"f".data, "f".data, ChangeType.modified, false, []⟩ 5 2 8 rfl rfl rfl,
   hunk_header_default_count.2.2.2 metaSt
     ⟨"f".data, "f".data, ChangeType.modified, false, []⟩ 5 8 2 rfl rfl rfl⟩

/-- C6: a `---`/`+++` pair is interpreted as the two-path file-metadata
marker only in the `InFileMetadata` state; the same shape of text inside a
hunk body is classified by its leading `-`/`+` column as a `DiffLine` and
never reinterpreted as a header (the file metadata stays untouched). -/
theorem metadata_tiebreak :
    (∀ st : PState, ∀ h : CurHunk, ∀ p : List Char,
       st.mode = PMode.inHunk → st.curHunk = some h →
       stepLine st ("--- ".data ++ p) =
         { st with curHunk := some { h with hLines := h.hLines ++
             [⟨DiffLineKind.removed, "-- ".data ++ p, false⟩] } }) ∧
    (∀ st : PState, ∀ h : CurHunk, ∀ p : List Char,
       st.mode = PMode.inHunk → st.curHunk = some h →
       stepLine st ("+++ ".data ++ p) =
         { st with curHunk := some { h with hLines := h.hLines ++
             [⟨DiffLineKind.added, "++ ".data ++ p, false⟩] } }) ∧
    (∀ st : PState, ∀ f : CurFile, ∀ p : List Char,
       st.mode = PMode.inFileMetadata → st.curFile = some f →
       stepLine st ("--- a/".data ++ p) =
         { st with curFile := some { f with foldPath := p } }) := by
  refine ⟨?_, ?_, ?_⟩ <;>
    (intro st x p hm hx
     obtain ⟨chs, ws, cf, ch, md⟩ := st
     dsimp at hm hx
     subst hm
     subst hx
     rfl)

theorem metadata_tiebreak_witness :
    stepLine hunkSt ("--- ".data ++ "a/x".data) =
      { hunkSt with curHunk := some ⟨1, 2, 1, 2,
          [⟨DiffLineKind.removed, "-- ".data ++ "a/x".data, false⟩]⟩ } :=
  metadata_tiebreak.1 hunkSt ⟨1, 2, 1, 2, []⟩ "a/x".data rfl rfl

/-- C5: a malformed hunk header is a recoverable parse anomaly — in the
metadata state the parser records a warning and keeps its state, in the
hunk state it closes the open hunk, records a warning and falls back to
the metadata state to resume at the next recognizable header; a concrete
diff whose first hunk header is malformed still yields the well-formed
second file section, so one malformed section never aborts the parse. -/
theorem malformed_hunk_recovery :
    (∀ st : PState, ∀ f : CurFile, ∀ l r : List Char,
       st.mode = PMode.inFileMetadata → st.curFile = some f →
       f.fbinary = false → l = '@' :: '@' :: r → parseHunkHeader l = none →
       stepLine st l =
         { st with warnings := st.warnings ++ [malformedHunkMsg] }) ∧
    (∀ st : PState, ∀ l r : List Char,
       st.mode = PMode.inHunk → l = '@' :: '@' :: r →
       parseHunkHeader l = none →
       stepLine st l =
         { closeHunk st with
             warnings := (closeHunk st).warnings ++ [malformedHunkMsg],
             mode := PMode.inFileMetadata }) ∧
    ((parseChars sampleMalformed).changes.map
        (fun fc => (fc.path, fc.hunks.length)) =
          [("x.txt".data, 0), ("y.txt".data, 1)] ∧
      (parseChars sampleMalformed).warnings = [malformedHunkMsg]) := by
  refine ⟨?_, ?_, by decide, by decide⟩
  · intro st f l r hm hf hb hl hph
    obtain ⟨chs, ws, cf, ch, md⟩ := st
    dsimp at hm hf
    subst hm
    subst hf
    have hstep : stepLine ⟨chs, ws, some f, ch, PMode.inFileMetadata⟩ l =
        handleMeta ⟨chs, ws, some f, ch, PMode.inFileMetadata⟩ l := by
      subst hl
      rfl
    rw [hstep, handleMeta_hunkHeader _ f l r hl rfl hb, hph]
  · intro st l r hm hl hph
    obtain ⟨chs, ws, cf, ch, md⟩ := st
    dsimp at hm
    subst hm
    subst hl
    have h1 : handleHunkLine ⟨chs, ws, cf, ch, PMode.inHunk⟩ ('@' :: '@' :: r) =
        match parseHunkHeader ('@' :: '@' :: r) with
        | some (a, b, c, d) =>
          { closeHunk ⟨chs, ws, cf, ch, PMode.inHunk⟩ with
              curHunk := some ⟨a, b, c, d, []⟩, mode := PMode.inHunk }
        | none =>
          { closeHunk ⟨chs, ws, cf, ch, PMode.inHunk⟩ with
              warnings := (closeHunk ⟨chs, ws, cf, ch, PMode.inHunk⟩).warnings ++
                [malformedHunkMsg],
              mode := PMode.inFileMetadata } := rfl
    have hstep : stepLine ⟨chs, ws, cf, ch, PMode.inHunk⟩ ('@' :: '@' :: r) =
        handleHunkLine ⟨chs, ws, cf, ch, PMode.inHunk⟩ ('@' :: '@' :: r) := rfl
    rw [hstep, h1, hph]

theorem malformed_hunk_recovery_witness :
    stepLine metaSt ("@@ -x,3 +1,2 @@".data) =
      { metaSt with warnings := metaSt.warnings ++ [malformedHunkMsg] } ∧
      stepLine hunkSt ("@@ !".data) =
        { closeHunk hunkSt with
            warnings := (closeHunk hunkSt).warnings ++ [malformedHunkMsg],
            mode := PMode.inFileMetadata } :=
  ⟨malformed_hunk_recovery.1 metaSt
      ⟨"f".data, "f".data, ChangeType.modified, false, []⟩
      ("@@ -x,3 +1,2 @@".data) (" -x,3 +1,2 @@".data) rfl rfl rfl rfl
      (by decide),
   malformed_hunk_recovery.2.1 hunkSt ("@@ !".data) (" !".data) rfl rfl
      (by decide)⟩

end PRCA
